import Mathlib

set_option maxHeartbeats 1000000

/-!
Verification development for the shuffledns post-processing core:
the massdns output parsers (`pkg/parser/parser.go`), the ingestion and
wildcard-filtering pipeline (`pkg/massdns/process.go`), and the record
store it drives.  Pure functions of the Go source are embedded as Lean
functions; Go runtime panics (out-of-range string indexing) are modelled
as `Except.error`; the externally linked `pkg/store` and `pkg/wildcards`
packages, which are not part of the sources under verification, are
modelled from the specification.
-/

deriving instance DecidableEq for Except

/-- A line of massdns output, as a list of characters (Go `string`,
byte-indexed; all inputs of interest are ASCII). -/
abbrev Line := List Char

/-- Go `strings.TrimSuffix(s, ".")` applied to a line: removes one
trailing dot when present (`parser.go` lines 134, 144). -/
def trimDot (l : Line) : Line :=
  if l.getLast? = some '.' then l.dropLast else l

/-- Go string indexing `text[i]`: returns the byte when `i < len(text)`
and otherwise raises a runtime panic (index out of range), modelled as
`Except.error ()`. -/
def goIndex (l : Line) (i : Nat) : Except Unit Char :=
  match l, i with
  | [], _ => .error ()
  | c :: _, 0 => .ok c
  | _ :: rest, i + 1 => goIndex rest i

/-- The answer-section-header test of `parseRaw` (`parser.go` line 97):
`text[0] == ';' && text[1] == ';' && text[2] == ' ' && text[3] == 'A' && text[4] == 'N'`,
with Go's left-to-right short-circuit evaluation, so an index is only
touched when every conjunct to its left held. -/
def isBoundary (text : Line) : Except Unit Bool :=
  match goIndex text 0 with
  | .error e => .error e
  | .ok c0 =>
    if c0 = ';' then
      match goIndex text 1 with
      | .error e => .error e
      | .ok c1 =>
        if c1 = ';' then
          match goIndex text 2 with
          | .error e => .error e
          | .ok c2 =>
            if c2 = ' ' then
              match goIndex text 3 with
              | .error e => .error e
              | .ok c3 =>
                if c3 = 'A' then
                  match goIndex text 4 with
                  | .error e => .error e
                  | .ok c4 => .ok (c4 = 'N')
                else .ok false
            else .ok false
        else .ok false
    else .ok false

/-- The state of the raw-format parsing loop of `parseRaw`
(`parser.go` lines 66-75): the three booleans plus the accumulating
domain and address list. -/
structure RawState where
  answerStart : Bool
  cnameStart : Bool
  nsStart : Bool
  domain : Line
  ip : List Line
deriving DecidableEq

/-- The zero state at loop entry of `parseRaw`. -/
def initRawState : RawState :=
  { answerStart := false, cnameStart := false, nsStart := false, domain := [], ip := [] }

/-- One iteration of the `parseRaw` scanner loop (`parser.go` lines
79-150) on one line of input.  Returns the successor state together
with the `(domain, ip)` pair handed to the callback when the line is a
record boundary with a pending domain; `Except.error` models a Go
runtime panic. -/
def rawStep (st : RawState) (text : Line) : Except Unit (RawState × Option (Line × List Line)) :=
  if text = [] then .ok (st, none)
  else if text.length < 4 then .ok (st, none)
  else
    match isBoundary text with
    | .error e => .error e
    | .ok true =>
      if st.domain ≠ [] then
        .ok ({ answerStart := true, cnameStart := false, nsStart := false,
               domain := [], ip := [] },
             some (st.domain, st.ip))
      else
        .ok ({ st with answerStart := true }, none)
    | .ok false =>
      if st.answerStart then
        match text.splitOn ' ' with
        | [p0, _p1, _p2, p3, p4] =>
          if p3 = ['N', 'S'] then
            .ok ({ st with nsStart := true }, none)
          else if p3 = ['C', 'N', 'A', 'M', 'E'] then
            if st.cnameStart = false then
              .ok ({ st with nsStart := false, domain := trimDot p0, cnameStart := true }, none)
            else .ok (st, none)
          else if p3 = ['A'] then
            if st.nsStart = false then
              .ok ({ st with
                     domain := if st.cnameStart = false ∧ st.domain = [] then trimDot p0
                               else st.domain,
                     ip := st.ip ++ [p4] }, none)
            else .ok (st, none)
          else .ok (st, none)
        | _ => .ok (st, none)
      else .ok (st, none)

/-- Runs the `parseRaw` scanner loop over a list of lines from a given
state, collecting the `(domain, ip)` pairs delivered to the callback in
order. -/
def rawRun (st : RawState) (ls : List Line) :
    Except Unit (RawState × List (Line × List Line)) :=
  match ls with
  | [] => .ok (st, [])
  | l :: rest =>
    match rawStep st l with
    | .error e => .error e
    | .ok (st1, out) =>
      match rawRun st1 rest with
      | .error e => .error e
      | .ok (st2, outs) => .ok (st2, out.toList ++ outs)

/-- `parseRaw` (`parser.go` lines 65-165) on a whole stream of lines:
runs the scanner loop from the zero state and performs the final flush
of a pending domain at end of stream (lines 159-163).  The result is
the list of `(domain, ip)` pairs passed to the callback; `Except.error`
models a Go runtime panic. -/
def parseRaw (ls : List Line) : Except Unit (List (Line × List Line)) :=
  match rawRun initRawState ls with
  | .error e => .error e
  | .ok (st, outs) =>
    if st.domain ≠ [] then .ok (outs ++ [(st.domain, st.ip)]) else .ok outs

/-- One nested answer of a structured (NDJSON) massdns record
(`parser.go` lines 24-29), after JSON decoding. -/
structure NDJSONAnswer where
  type : String
  data : String
deriving DecidableEq

/-- One structured (NDJSON) massdns record (`parser.go` lines 13-20),
after JSON decoding.  Fields not read by `parseNDJSON` are omitted. -/
structure DNSRecord where
  name : String
  type : String
  status : String
  answers : List NDJSONAnswer
deriving DecidableEq

/-- Go `strings.TrimSuffix(name, ".")` on a Lean `String`: removes one
trailing dot when present. -/
def trimDotStr (s : String) : String :=
  if s.data.getLast? = some '.' then String.mk s.data.dropLast else s

/-- The address-collection loop of `parseNDJSON` (`parser.go` lines
185-189): the `data` fields of the nested answers of type `"A"`, in
order. -/
def ndjsonAnswerIPs (answers : List NDJSONAnswer) : List String :=
  answers.foldl (fun acc a => if a.type = "A" then acc ++ [a.data] else acc) []

/-- The per-record body of the `parseNDJSON` scanner loop
(`parser.go` lines 178-196) on one decoded record: `some (domain, ips)`
when the callback fires, `none` when the record is skipped. -/
def ndjsonRecordOutput (r : DNSRecord) : Option (String × List String) :=
  if r.type = "A" ∧ r.status = "NOERROR" then
    let ips := ndjsonAnswerIPs r.answers
    if 0 < ips.length then some (trimDotStr r.name, ips) else none
  else none

/-- `parseNDJSON` (`parser.go` lines 167-204) over a stream of already
decoded records: the list of `(domain, ips)` pairs passed to the
callback, in input order. -/
def parseNDJSON (rs : List DNSRecord) : List (String × List String) :=
  rs.filterMap ndjsonRecordOutput

/-- One bucket of the record store: the hostnames that resolved to a key
in first-seen order, and the insertion counter. -/
structure StoreEntry where
  hostnames : List String
  counter : Nat
deriving DecidableEq

/-- Modelled from the spec: `pkg/store` is not among the sources under
verification; per spec §3/§4.2 the store is a mapping from StoreKey to
`(hostnames, count)` with a stable implementation-defined visit order,
modelled as an association list in insertion order. -/
abbrev Store := List (String × StoreEntry)

/-- Modelled from the spec: `exists(key) → bool` of §4.2. -/
def Store.Exists (s : Store) (k : String) : Bool :=
  s.any (fun p => p.1 = k)

/-- Modelled from the spec: `create(key, hostname)` of §4.2, for a key
not yet present — inserts a fresh bucket holding one hostname with one
recorded insertion (matches `store.New` as used by `process.go`). -/
def Store.New (s : Store) (k h : String) : Store :=
  s ++ [(k, { hostnames := [h], counter := 1 })]

/-- Modelled from the spec: `append(key, hostname)` of §4.2, for a key
already present — appends the hostname to the bucket and increments its
count by exactly one (matches `store.Update` as used by `process.go`). -/
def Store.Update (s : Store) (k h : String) : Store :=
  s.map (fun p =>
    if p.1 = k then (p.1, { hostnames := p.2.hostnames ++ [h], counter := p.2.counter + 1 })
    else p)

/-- Modelled from the spec: `delete(key)` of §4.2 — removes the key's
bucket from the store. -/
def Store.Delete (s : Store) (k : String) : Store :=
  s.filter (fun p => p.1 ≠ k)

/-- Bucket lookup in the association-list store. -/
def Store.find (s : Store) (k : String) : Option StoreEntry :=
  match s with
  | [] => none
  | p :: rest => if p.1 = k then some p.2 else Store.find rest k

/-- The create-or-append step of the ingestion callback of
`parseMassDNSOutputFile` (`process.go` lines 150-159 and 165-173):
`store.New` when the key is absent, `store.Update` when present. -/
def upsertHost (s : Store) (k h : String) : Store :=
  if s.Exists k then s.Update k h else s.New k h

/-- The ingestion callback of `parseMassDNSOutputFile` (`process.go`
lines 147-176) on one `(domain, ips)` event delivered by the parser:
non-empty `ips` create-or-append the domain under every address key;
empty `ips` create-or-append under the synthetic `"CNAME:"+domain`
key. -/
def processEvent (s : Store) (domain : String) (ips : List String) : Store :=
  if 0 < ips.length then
    ips.foldl (fun acc ip => upsertHost acc ip domain) s
  else
    upsertHost s ("CNAME:" ++ domain) domain

/-- Modelled from the spec: the WildcardSet of §3 (`pkg/wildcards`
store, not among the sources under verification) — a monotonically
growing set of store keys, as a duplicate-free list. -/
abbrev WildcardSet := List String

/-- Modelled from the spec: membership test of the WildcardSet
(`wildcardStore.Has`). -/
def wsetHas (w : WildcardSet) (k : String) : Bool :=
  w.contains k

/-- Modelled from the spec: insertion into the WildcardSet
(`wildcardStore.Set`): the set grows monotonically, never shrinks. -/
def wsetSet (w : WildcardSet) (k : String) : WildcardSet :=
  if w.contains k then w else w ++ [k]

/-- Result of one wildcard probe (`wildcardResolver.LookupHost` in
`process.go` line 235): whether the queried hostname behaved as a
wildcard, and every address observed while probing it. -/
structure ProbeResult where
  isWildcard : Bool
  ips : List String

/-- The probe tasks spawned for one bucket by `filterWildcards`
(`process.go` lines 222-257), sequentialised in hostname order: every
address a probe observes is inserted into the wildcard set, a probe
reporting wildcard also inserts the bucket's own key and signals the
bucket's cancellation token, and sibling tasks check the token only at
task start, skipping their probe once it is signalled.  The
accumulator carries the wildcard set, the `(bucket key, hostname)`
pairs probed so far, and the bucket's cancellation flag. -/
def bucketProbeStep (probe : String → ProbeResult) (key : String)
    (acc : WildcardSet × (List (String × String) × Bool)) (h : String) :
    WildcardSet × (List (String × String) × Bool) :=
  if acc.2.2 then acc
  else
    let r := probe h
    let w1 := r.ips.foldl wsetSet acc.1
    let w2 := if r.isWildcard then wsetSet w1 key else w1
    (w2, (acc.2.1 ++ [(key, h)], r.isWildcard))

/-- The probe tasks of one bucket, run in hostname order from a given
wildcard set: returns the grown wildcard set and the
`(bucket key, hostname)` pairs actually probed. -/
def runBucketProbes (probe : String → ProbeResult) (key : String)
    (hostnames : List String) (w : WildcardSet) :
    WildcardSet × List (String × String) :=
  let r := hostnames.foldl (bucketProbeStep probe key) (w, ([], false))
  (r.1, r.2.1)

/-- The probe-eligibility guard of `filterWildcards` (`process.go`
lines 215-221): the bucket's key is not already in the wildcard set,
and its counter is at least 5 or the run's strict-wildcard flag is
set. -/
def eligibleEntry (w0 : WildcardSet) (strict : Bool) (p : String × StoreEntry) : Bool :=
  !(wsetHas w0 p.1) && (decide (5 ≤ p.2.counter) || strict)

/-- The buckets whose hostnames `filterWildcards` submits for probing,
in store visit order (`process.go` lines 211-259). -/
def submittedBuckets (s : Store) (w0 : WildcardSet) (strict : Bool) :
    List (String × List String) :=
  (s.filter (eligibleEntry w0 strict)).map (fun p => (p.1, p.2.hostnames))

/-- The deletion loop after the join barrier (`process.go` lines
268-270): every key of the wildcard set is deleted from the record
store. -/
def deleteKeys (s : Store) (w : WildcardSet) : Store :=
  w.foldl Store.Delete s

/-- Result of the wildcard-filter phase: the pruned store, the final
wildcard set, and the `(bucket key, hostname)` probe tasks that ran. -/
structure FilterResult where
  store : Store
  wset : WildcardSet
  probed : List (String × String)
deriving DecidableEq

/-- `filterWildcards` (`process.go` lines 205-271), with its goroutine
pool resolved to the deterministic schedule in which every probe task
spawned during the store iteration executes after the iteration
finishes (a legal interleaving of the pool; the iteration-time
`wildcardStore.Has` check then reads the phase-initial wildcard set,
matching spec §4.3 step 1).  Probe tasks run bucket by bucket in
submission order, grow the wildcard set, and after the join barrier
every key of the wildcard set is deleted from the store.
`bucketSubmitStep` processes one submitted bucket, accumulating the
wildcard set and the probes run. -/
def bucketSubmitStep (probe : String → ProbeResult)
    (acc : WildcardSet × List (String × String)) (b : String × List String) :
    WildcardSet × List (String × String) :=
  let br := runBucketProbes probe b.1 b.2 acc.1
  (br.1, acc.2 ++ br.2)

/-- The whole wildcard-filter phase, from a phase-initial wildcard set:
probe the submitted buckets, then delete every wildcard-set key. -/
def filterWildcards (s : Store) (w0 : WildcardSet) (strict : Bool)
    (probe : String → ProbeResult) : FilterResult :=
  let r := (submittedBuckets s w0 strict).foldl (bucketSubmitStep probe) (w0, [])
  { store := deleteKeys s r.1, wset := r.1, probed := r.2 }

/-- The answer lists of a trusted-resolver response that `writeOutput`
inspects (`dnsx` response fields `resp.A` and `resp.CNAME`,
`process.go` line 324). -/
structure DNSResponse where
  A : List String
  CNAME : List String
deriving DecidableEq

/-- The trusted-resolver gate of the per-hostname output task
(`process.go` lines 323-334): with no trusted resolvers configured
every hostname passes; otherwise the hostname passes exactly when
`QueryOne` succeeds and returns at least one A address or CNAME
answer.  A failing gate only skips the hostname (logged), it is never
an error of the run. -/
def verifyGate (dnsResolver : Option (String → Except Unit DNSResponse))
    (hostname : String) : Bool :=
  match dnsResolver with
  | none => true
  | some q =>
    match q hostname with
    | .error _ => false
    | .ok resp => !(decide (resp.A.length = 0) && decide (resp.CNAME.length = 0))

/-- The output formatting of the per-hostname task (`process.go` lines
336-351): a JSON object per line or the plain hostname per line. -/
def formatHostname (json : Bool) (h : String) : String :=
  if json then "\x7b\"hostname\":\"" ++ h ++ "\"\x7d\n" else h ++ "\n"

/-- Result of the output phase: the hostnames emitted in order, the
lines written to the sinks, and the final resolved-count tally. -/
structure OutputResult where
  emitted : List String
  lines : List String
  resolvedCount : Nat
deriving DecidableEq

/-- `writeOutput` (`process.go` lines 273-372), with its goroutine pool
resolved to the serialized schedule in which each per-hostname task
runs to completion at submission (all sink writes and tally updates
thereby mutually excluded).  The store iteration deduplicates hostnames
globally through `uniqueMap` before spawning the task; a task whose
trusted-resolver gate fails emits nothing and leaves the tally
unchanged.  `outputStep` handles one hostname of one bucket: the
accumulator carries the `uniqueMap` seen-set and the output so far. -/
def outputStep (dnsResolver : Option (String → Except Unit DNSResponse)) (json : Bool)
    (acc : List String × OutputResult) (h : String) : List String × OutputResult :=
  if acc.1.contains h then acc
  else
    let seen := acc.1 ++ [h]
    if verifyGate dnsResolver h then
      (seen, { emitted := acc.2.emitted ++ [h],
               lines := acc.2.lines ++ [formatHostname json h],
               resolvedCount := acc.2.resolvedCount + 1 })
    else (seen, acc.2)

/-- The output phase proper: drain every surviving bucket's hostname
list through `outputStep`, starting from an empty seen-set, no output
and tally 0. -/
def writeOutput (s : Store) (dnsResolver : Option (String → Except Unit DNSResponse))
    (json : Bool) : OutputResult :=
  (s.foldl (fun acc p => p.2.hostnames.foldl (outputStep dnsResolver json) acc)
    ([], { emitted := [], lines := [], resolvedCount := 0 })).2

/-- The post-ingestion pipeline of `Run` (`process.go` lines 119-138):
wildcard filtering runs only when at least one target domain is
configured, then the output phase drains the (possibly pruned)
store. -/
def runPipeline (domains : List String) (s : Store) (strict : Bool)
    (probe : String → ProbeResult)
    (dnsResolver : Option (String → Except Unit DNSResponse)) (json : Bool) :
    FilterResult × OutputResult :=
  let fr := if 0 < domains.length then filterWildcards s [] strict probe
            else { store := s, wset := [], probed := [] }
  (fr, writeOutput fr.store dnsResolver json)

/-- One scheduler event of the unsynchronized `resolvedCount++` of the
`writeOutput` goroutines (`process.go` line 357): the increment
compiles to a load of the shared counter into a task-local register
followed by a store of the incremented value, and the Go scheduler may
interleave these steps of different tasks arbitrarily because
`writeOutput` takes no lock around them. -/
inductive RaceStep where
  | load (tid : Nat)
  | store (tid : Nat)
deriving DecidableEq

/-- Shared-memory state of the racing `resolvedCount++` increments: the
shared tally and each task's local register. -/
structure RaceState where
  resolvedCount : Nat
  regs : List (Option Nat)
deriving DecidableEq

/-- Executes one scheduler event of the unsynchronized increments. -/
def raceStepExec (st : RaceState) (e : RaceStep) : RaceState :=
  match e with
  | .load t => { st with regs := st.regs.set t (some st.resolvedCount) }
  | .store t =>
    match st.regs[t]? with
    | some (some v) => { st with resolvedCount := v + 1 }
    | _ => st

/-- Executes a schedule of the unsynchronized `resolvedCount++`
increments of `nTasks` concurrent emit tasks, starting from tally 0. -/
def raceExec (nTasks : Nat) (events : List RaceStep) : RaceState :=
  events.foldl raceStepExec { resolvedCount := 0, regs := List.replicate nTasks none }

/-- A raw-format line that keeps the NS-suppression marker of the
current record in place: empty, shorter than four characters, or a
non-boundary line that is not a CNAME-typed 5-field data line.  Used to
state for which in-record lines the post-NS suppression of A-record
collection persists. -/
def lineKeepsNs (l : Line) : Bool :=
  if l = [] then true
  else if l.length < 4 then true
  else
    match isBoundary l with
    | .ok false =>
      (match l.splitOn ' ' with
       | [_, _, _, p3, _] => decide (p3 ≠ ['C', 'N', 'A', 'M', 'E'])
       | _ => true)
    | _ => false

/-- Concrete probe behavior: probing the first hostname of the
`10.0.0.5` bucket observes the address `10.0.0.9` (without the probed
name itself behaving as a wildcard); every other probe observes
nothing. -/
def wildcardProbeCross : String → ProbeResult := fun h =>
  if h = "w1.example.com" then { isWildcard := false, ips := ["10.0.0.9"] }
  else { isWildcard := false, ips := [] }

/-- Concrete trusted-resolver behavior: `b.com` fails on the trusted
path, every other hostname resolves to an A address. -/
def trustedQueryEx : String → Except Unit DNSResponse := fun h =>
  if h = "b.com" then .error () else .ok { A := ["1.1.1.1"], CNAME := [] }

/-- Concrete post-ingestion store: a five-hostname bucket at
`10.0.0.5` and a single-hostname bucket at `10.0.0.9`. -/
def wildcardStoreCross : Store :=
  [("10.0.0.5", { hostnames := ["w1.example.com", "w2.example.com", "w3.example.com",
                                "w4.example.com", "w5.example.com"], counter := 5 }),
   ("10.0.0.9", { hostnames := ["app.example.com"], counter := 1 })]

theorem rawRun_nil (st : RawState) : rawRun st [] = .ok (st, []) := rfl

theorem rawRun_cons_none {st st1 st2 : RawState} {l : Line} {ls : List Line}
    {outs : List (Line × List Line)}
    (h1 : rawStep st l = .ok (st1, none)) (h2 : rawRun st1 ls = .ok (st2, outs)) :
    rawRun st (l :: ls) = .ok (st2, outs) := by
  simp [rawRun, h1, h2]

theorem rawRun_cons_some {st st1 st2 : RawState} {l : Line} {ls : List Line}
    {p : Line × List Line} {outs : List (Line × List Line)}
    (h1 : rawStep st l = .ok (st1, some p)) (h2 : rawRun st1 ls = .ok (st2, outs)) :
    rawRun st (l :: ls) = .ok (st2, p :: outs) := by
  simp [rawRun, h1, h2]

theorem rawStep_keepsNs {st : RawState} (hns : st.nsStart = true) {l : Line}
    (hl : lineKeepsNs l = true) : rawStep st l = .ok (st, none) := by
  obtain ⟨a, c, n, d, i⟩ := st
  obtain rfl : n = true := hns
  by_cases h0 : l = []
  · simp [rawStep, h0]
  · by_cases h4 : l.length < 4
    · simp [rawStep, h0, h4]
    · rcases hb : isBoundary l with e | b
      · simp [lineKeepsNs, h0, h4, hb] at hl
      · cases b with
        | true => simp [lineKeepsNs, h0, h4, hb] at hl
        | false =>
          cases a with
          | false => simp [rawStep, h0, h4, hb]
          | true =>
            rcases hsp : l.splitOn ' ' with _ | ⟨p0, _ | ⟨p1, _ | ⟨p2, _ | ⟨p3, _ | ⟨p4, _ | ⟨p5, ps⟩⟩⟩⟩⟩⟩ <;>
              simp [lineKeepsNs, h0, h4, hb, hsp] at hl <;>
              simp [rawStep, h0, h4, hb, hsp, hl]

/-- C2 (amended): once an NS line has occurred inside a record, the
parser state — in particular the accumulated addresses — is left
untouched by every subsequent line of the record that is not a
CNAME-typed 5-field data line (empty lines, short lines, skipped
malformed lines, further NS lines and, crucially, A lines contribute
nothing), and no record is flushed by those lines.  The claim's
original "regardless of what other line types (including CNAME) appear"
is refuted by `C2_counterexample_cname_clears_ns`: a first-occurrence
CNAME line clears the NS marker (`parser.go` line 133) and re-enables
A-record collection. -/
theorem C2_ns_suppresses_a_records (st : RawState) (ls : List Line)
    (hns : st.nsStart = true)
    (hl : ∀ l ∈ ls, lineKeepsNs l = true) :
    rawRun st ls = .ok (st, []) := by
  induction ls with
  | nil => rfl
  | cons x xs ih =>
    have hx := rawStep_keepsNs hns (hl x (by simp))
    have hr := ih (fun l hm => hl l (by simp [hm]))
    exact rawRun_cons_none hx hr

/-- C2 witness: with the NS marker set inside a record, an A line for
`9.9.9.9` leaves the parser state (and so the record's addresses)
unchanged. -/
theorem C2_witness :
    rawRun { answerStart := true, cnameStart := false, nsStart := true,
             domain := ("a.com").toList, ip := [] }
        [("b.com. 3600 IN A 9.9.9.9").toList] =
      .ok ({ answerStart := true, cnameStart := false, nsStart := true,
             domain := ("a.com").toList, ip := [] }, []) :=
  C2_ns_suppresses_a_records _ _ rfl (by decide)

theorem rawStep_boundary_flush (st : RawState) (rest : Line) (hdom : st.domain ≠ []) :
    rawStep st (';' :: ';' :: ' ' :: 'A' :: 'N' :: rest) =
      .ok ({ answerStart := true, cnameStart := false, nsStart := false,
             domain := [], ip := [] },
           some (st.domain, st.ip)) := by
  have hb : isBoundary (';' :: ';' :: ' ' :: 'A' :: 'N' :: rest) = .ok true := rfl
  have hlen : ¬ (';' :: ';' :: ' ' :: 'A' :: 'N' :: rest : Line).length < 4 := by
    simp
  simp [rawStep, hb, hlen, hdom]

theorem rawStep_boundary_pass (st : RawState) (rest : Line) (hdom : st.domain = []) :
    rawStep st (';' :: ';' :: ' ' :: 'A' :: 'N' :: rest) =
      .ok ({ st with answerStart := true }, none) := by
  have hb : isBoundary (';' :: ';' :: ' ' :: 'A' :: 'N' :: rest) = .ok true := rfl
  have hlen : ¬ (';' :: ';' :: ' ' :: 'A' :: 'N' :: rest : Line).length < 4 := by
    simp
  simp [rawStep, hb, hlen, hdom]

theorem rawStep_data (st : RawState) (hans : st.answerStart = true)
    (l n t c ty v : Line)
    (hsplit : l.splitOn ' ' = [n, t, c, ty, v])
    (hhead : l[0]? ≠ some ';') :
    rawStep st l = .ok
      ((if ty = ['N', 'S'] then { st with nsStart := true }
        else if ty = ['C', 'N', 'A', 'M', 'E'] then
          (if st.cnameStart = false then
            { st with nsStart := false, domain := trimDot n, cnameStart := true }
          else st)
        else if ty = ['A'] then
          (if st.nsStart = false then
            { st with
              domain := if st.cnameStart = false ∧ st.domain = [] then trimDot n
                        else st.domain,
              ip := st.ip ++ [v] }
          else st)
        else st), none) := by
  have h0 : l ≠ [] := by
    intro h
    rw [h] at hsplit
    have hnil : (([] : Line).splitOn ' ') = [[]] := rfl
    rw [hnil] at hsplit
    simp at hsplit
  have hl : [' '].intercalate (l.splitOn ' ') = l := List.intercalate_splitOn l ' '
  rw [hsplit] at hl
  have hlen : ¬ l.length < 4 := by
    rw [← hl]
    simp [List.intercalate, List.intersperse]
    omega
  have hbf : isBoundary l = .ok false := by
    cases l with
    | nil => exact absurd rfl h0
    | cons x l' =>
      have hx : ¬ x = ';' := fun he => hhead (by simp [he])
      simp [isBoundary, goIndex, hx]
  simp only [rawStep, if_neg h0, if_neg hlen, hbf, hans, if_true, hsplit]
  split_ifs <;> rfl

/-- C1: on a raw-format stream of two answer-section-header-delimited
records — each a CNAME line (whose name field gives the domain) followed
by two A lines — the raw parser invokes the callback exactly twice, in
order, each time with the record's trailing-dot-stripped CNAME name
paired with exactly that record's two A values; the second record has
no trailing boundary marker and is flushed once at end of stream since
its accumulated domain is non-empty (`parser.go` lines 97-107 and
153-164). -/
theorem C1_raw_two_records
    (rest1 rest2 l1 l2 a1 a2 a3 a4 : Line)
    (n1 t1 c1 v1 n2 t2 c2 v2 : Line)
    (m1 u1 d1 w1 m2 u2 d2 w2 m3 u3 d3 w3 m4 u4 d4 w4 : Line)
    (hl1 : l1.splitOn ' ' = [n1, t1, c1, ['C', 'N', 'A', 'M', 'E'], v1])
    (hl1h : l1[0]? ≠ some ';')
    (hl2 : l2.splitOn ' ' = [n2, t2, c2, ['C', 'N', 'A', 'M', 'E'], v2])
    (hl2h : l2[0]? ≠ some ';')
    (ha1 : a1.splitOn ' ' = [m1, u1, d1, ['A'], w1]) (ha1h : a1[0]? ≠ some ';')
    (ha2 : a2.splitOn ' ' = [m2, u2, d2, ['A'], w2]) (ha2h : a2[0]? ≠ some ';')
    (ha3 : a3.splitOn ' ' = [m3, u3, d3, ['A'], w3]) (ha3h : a3[0]? ≠ some ';')
    (ha4 : a4.splitOn ' ' = [m4, u4, d4, ['A'], w4]) (ha4h : a4[0]? ≠ some ';')
    (hd1 : trimDot n1 ≠ []) (hd2 : trimDot n2 ≠ []) :
    parseRaw [';' :: ';' :: ' ' :: 'A' :: 'N' :: rest1, l1, a1, a2,
              ';' :: ';' :: ' ' :: 'A' :: 'N' :: rest2, l2, a3, a4] =
      .ok [(trimDot n1, [w1, w2]), (trimDot n2, [w3, w4])] := by
  have hs1 : rawStep initRawState (';' :: ';' :: ' ' :: 'A' :: 'N' :: rest1) =
      .ok (⟨true, false, false, [], []⟩, none) :=
    rawStep_boundary_pass initRawState rest1 rfl
  have hs2 : rawStep ⟨true, false, false, [], []⟩ l1 =
      .ok (⟨true, true, false, trimDot n1, []⟩, none) := by
    have h := rawStep_data ⟨true, false, false, [], []⟩ rfl l1 n1 t1 c1 _ v1 hl1 hl1h
    simpa using h
  have hs3 : rawStep ⟨true, true, false, trimDot n1, []⟩ a1 =
      .ok (⟨true, true, false, trimDot n1, [w1]⟩, none) := by
    have h := rawStep_data ⟨true, true, false, trimDot n1, []⟩ rfl a1 m1 u1 d1 _ w1 ha1 ha1h
    simpa using h
  have hs4 : rawStep ⟨true, true, false, trimDot n1, [w1]⟩ a2 =
      .ok (⟨true, true, false, trimDot n1, [w1, w2]⟩, none) := by
    have h := rawStep_data ⟨true, true, false, trimDot n1, [w1]⟩ rfl a2 m2 u2 d2 _ w2 ha2 ha2h
    simpa using h
  have hs5 : rawStep ⟨true, true, false, trimDot n1, [w1, w2]⟩
      (';' :: ';' :: ' ' :: 'A' :: 'N' :: rest2) =
      .ok (⟨true, false, false, [], []⟩, some (trimDot n1, [w1, w2])) := by
    have h := rawStep_boundary_flush ⟨true, true, false, trimDot n1, [w1, w2]⟩ rest2 hd1
    simpa using h
  have hs6 : rawStep ⟨true, false, false, [], []⟩ l2 =
      .ok (⟨true, true, false, trimDot n2, []⟩, none) := by
    have h := rawStep_data ⟨true, false, false, [], []⟩ rfl l2 n2 t2 c2 _ v2 hl2 hl2h
    simpa using h
  have hs7 : rawStep ⟨true, true, false, trimDot n2, []⟩ a3 =
      .ok (⟨true, true, false, trimDot n2, [w3]⟩, none) := by
    have h := rawStep_data ⟨true, true, false, trimDot n2, []⟩ rfl a3 m3 u3 d3 _ w3 ha3 ha3h
    simpa using h
  have hs8 : rawStep ⟨true, true, false, trimDot n2, [w3]⟩ a4 =
      .ok (⟨true, true, false, trimDot n2, [w3, w4]⟩, none) := by
    have h := rawStep_data ⟨true, true, false, trimDot n2, [w3]⟩ rfl a4 m4 u4 d4 _ w4 ha4 ha4h
    simpa using h
  have hr : rawRun initRawState
      [';' :: ';' :: ' ' :: 'A' :: 'N' :: rest1, l1, a1, a2,
       ';' :: ';' :: ' ' :: 'A' :: 'N' :: rest2, l2, a3, a4] =
      .ok (⟨true, true, false, trimDot n2, [w3, w4]⟩, [(trimDot n1, [w1, w2])]) :=
    rawRun_cons_none hs1 (rawRun_cons_none hs2 (rawRun_cons_none hs3 (rawRun_cons_none hs4
      (rawRun_cons_some hs5 (rawRun_cons_none hs6 (rawRun_cons_none hs7
        (rawRun_cons_none hs8 (rawRun_nil _))))))))
  simp [parseRaw, hr, hd2]

/-- C1 witness: a concrete two-record stream with CNAME-then-two-A
records yields exactly the two paired callback results. -/
theorem C1_witness :
    parseRaw [';' :: ';' :: ' ' :: 'A' :: 'N' :: ("SWER SECTION:").toList,
              ("web.com. 3600 IN CNAME tgt.com.").toList,
              ("tgt.com. 3600 IN A 1.2.3.4").toList,
              ("tgt.com. 3600 IN A 1.2.3.5").toList,
              ';' :: ';' :: ' ' :: 'A' :: 'N' :: ("SWER SECTION:").toList,
              ("api.com. 3600 IN CNAME cdn.com.").toList,
              ("cdn.com. 3600 IN A 2.2.2.2").toList,
              ("cdn.com. 3600 IN A 2.2.2.3").toList] =
      .ok [(trimDot ("web.com.").toList, [("1.2.3.4").toList, ("1.2.3.5").toList]),
           (trimDot ("api.com.").toList, [("2.2.2.2").toList, ("2.2.2.3").toList])] :=
  C1_raw_two_records _ _ _ _ _ _ _ _
    ("web.com.").toList ("3600").toList ("IN").toList ("tgt.com.").toList
    ("api.com.").toList ("3600").toList ("IN").toList ("cdn.com.").toList
    ("tgt.com.").toList ("3600").toList ("IN").toList ("1.2.3.4").toList
    ("tgt.com.").toList ("3600").toList ("IN").toList ("1.2.3.5").toList
    ("cdn.com.").toList ("3600").toList ("IN").toList ("2.2.2.2").toList
    ("cdn.com.").toList ("3600").toList ("IN").toList ("2.2.2.3").toList
    (by decide) (by decide) (by decide) (by decide)
    (by decide) (by decide) (by decide) (by decide)
    (by decide) (by decide) (by decide) (by decide)
    (by decide) (by decide)

/-- C3: the claim says raw-mode parsing is total over each line — a line
is a record boundary exactly when its first five characters are
`;`,`;`,` `,`A`,`N`, and every other line, including lines shorter than
five characters, is skipped without faulting.  The code is not total:
its guard only rejects lines shorter than four characters
(`parser.go` line 86) and then reads `text[4]` (line 97), so the
four-character line `";; A"` makes `parseRaw` panic with an index out
of range instead of being skipped. -/
theorem C3_line_len4_panics : parseRaw [[';', ';', ' ', 'A']] = .error () := by decide

/-- C9: the claim says the concurrent emit tasks' writes to the sinks
and to the resolved-count tally are mutually excluded and the final
count equals the number of emitted hostnames.  `writeOutput` takes no
lock around `resolvedCount++` (`process.go` line 357), so the Go
scheduler may interleave the load and store halves of two tasks'
increments: the schedule below loses an update and ends with tally 1
after two completed emit tasks, while any serialized schedule of the
same two increments ends with tally 2. -/
theorem C9_unsynchronized_increment_loses_update :
    (raceExec 2 [.load 0, .load 1, .store 0, .store 1]).resolvedCount = 1 ∧
    (raceExec 2 [.load 0, .store 0, .load 1, .store 1]).resolvedCount = 2 := by
  decide

/-- C2: counterexample to the claim as stated.  The claim says an NS
line suppresses every subsequent A line of the same record regardless
of the line types between them, including CNAME.  In the record below
an NS line is followed by a first-occurrence CNAME line and then an A
line; the CNAME handler clears the NS marker (`parser.go` line 133), so
the A value `1.2.3.4` is collected into the record's addresses, which
the claim says must exclude it. -/
theorem C2_counterexample_cname_clears_ns :
    parseRaw [(";; ANSWER SECTION:").toList,
              ("a.com. 3600 IN NS ns1.com.").toList,
              ("a.com. 3600 IN CNAME b.com.").toList,
              ("b.com. 3600 IN A 1.2.3.4").toList] =
      .ok [(("a.com").toList, [("1.2.3.4").toList])] := by
  decide

/-- C4: counterexample to the claim as stated.  The claim says a bucket
that is not probe-eligible (here `10.0.0.9`, count 1, strict mode off)
survives to the output phase.  In the run below the eligible bucket
`10.0.0.5` is probed, one probe observes the address `10.0.0.9`, which
therefore enters the wildcard set and is deleted from the store
(`process.go` lines 237-245 and 268-270): the ineligible bucket is
never probed, yet it does not survive. -/
theorem C4_counterexample_ineligible_bucket_deleted :
    (filterWildcards wildcardStoreCross [] false wildcardProbeCross).store.Exists "10.0.0.9"
        = false ∧
    ((filterWildcards wildcardStoreCross [] false wildcardProbeCross).probed.all
        (fun p => p.1 ≠ "10.0.0.9")) = true := by
  decide

theorem ndjsonAnswerIPs_eq_filter_map (answers : List NDJSONAnswer) :
    ndjsonAnswerIPs answers =
      (answers.filter (fun a => a.type = "A")).map NDJSONAnswer.data := by
  suffices h : ∀ acc, answers.foldl (fun acc a => if a.type = "A" then acc ++ [a.data] else acc) acc
      = acc ++ (answers.filter (fun a => a.type = "A")).map NDJSONAnswer.data by
    simpa [ndjsonAnswerIPs] using h []
  induction answers with
  | nil => simp
  | cons x xs ih =>
    intro acc
    by_cases hx : x.type = "A" <;> simp [hx, ih, List.filter_cons]

/-- C6: in structured (NDJSON) mode the per-record callback fires if and
only if the record has type `"A"`, status `"NOERROR"`, and at least one
nested answer of type `"A"`; when it fires it receives the
trailing-dot-stripped name and exactly the `data` fields of the nested
answers of type `"A"`, in order (`parser.go` lines 182-196).  Records
failing the type/status check — e.g. status `"NXDOMAIN"` or type
`"CNAME"` — or without an A answer produce no callback. -/
theorem C6_structured_callback_iff (r : DNSRecord) (d : String) (ips : List String) :
    ndjsonRecordOutput r = some (d, ips) ↔
      (r.type = "A" ∧ r.status = "NOERROR" ∧
       d = trimDotStr r.name ∧
       ips = (r.answers.filter (fun a => a.type = "A")).map NDJSONAnswer.data ∧
       ips ≠ []) := by
  simp only [ndjsonRecordOutput, ndjsonAnswerIPs_eq_filter_map]
  by_cases htype : r.type = "A" ∧ r.status = "NOERROR"
  · by_cases hlen : 0 < ((r.answers.filter (fun a => a.type = "A")).map NDJSONAnswer.data).length
    · rw [if_pos htype, if_pos hlen]
      constructor
      · intro h
        simp only [Option.some.injEq, Prod.mk.injEq] at h
        refine ⟨htype.1, htype.2, h.1.symm, h.2.symm, ?_⟩
        rw [← h.2]
        exact List.ne_nil_of_length_pos hlen
      · rintro ⟨-, -, rfl, rfl, -⟩
        rfl
    · rw [if_pos htype, if_neg hlen]
      constructor
      · intro h
        exact Option.noConfusion h
      · rintro ⟨-, -, -, rfl, hne⟩
        exact absurd (List.length_eq_zero.mp (Nat.eq_zero_of_not_pos hlen)) hne
  · rw [if_neg htype]
    constructor
    · intro h
      exact Option.noConfusion h
    · rintro ⟨h1, h2, -⟩
      exact absurd ⟨h1, h2⟩ htype

/-- C6 witness: a NOERROR A record with one CNAME answer and one A
answer fires the callback with the stripped name and just the A
answer's data. -/
theorem C6_witness :
    ndjsonRecordOutput
        { name := "x.com.", type := "A", status := "NOERROR",
          answers := [{ type := "CNAME", data := "y.com." },
                      { type := "A", data := "9.9.9.9" }] } =
      some ("x.com", ["9.9.9.9"]) :=
  (C6_structured_callback_iff _ _ _).mpr (by decide)

theorem find_isSome_eq_Exists (s : Store) (k : String) :
    (s.find k).isSome = s.Exists k := by
  induction s with
  | nil => rfl
  | cons p rest ih =>
    by_cases hp : p.1 = k
    · simp [Store.find, Store.Exists, List.any_cons, hp]
    · simp [Store.find, Store.Exists, List.any_cons, hp]
      simp_all [Store.Exists]

theorem find_append (s s' : Store) (k : String) :
    Store.find (s ++ s') k =
      (match s.find k with
       | some e => some e
       | none => s'.find k) := by
  induction s with
  | nil => simp [Store.find]
  | cons p rest ih =>
    by_cases hp : p.1 = k <;> simp [Store.find, hp, ih]

theorem find_New_self (s : Store) (k h : String) (hE : s.Exists k = false) :
    (s.New k h).find k = some { hostnames := [h], counter := 1 } := by
  have hf : s.find k = none := by
    have := find_isSome_eq_Exists s k
    rw [hE] at this
    exact Option.not_isSome_iff_eq_none.mp (by simp [this])
  rw [Store.New, find_append, hf]
  simp [Store.find]

theorem find_New_ne (s : Store) (k h k' : String) (hne : k' ≠ k) :
    (s.New k h).find k' = s.find k' := by
  rw [Store.New, find_append]
  have hkk : ¬ k = k' := fun he => hne he.symm
  have hone : Store.find [(k, { hostnames := [h], counter := 1 })] k' = none := by
    simp [Store.find, hkk]
  cases hfk : s.find k' <;> simp [hone]

theorem find_Update (s : Store) (k h k' : String) :
    (s.Update k h).find k' =
      (match s.find k' with
       | none => none
       | some e =>
         if k' = k then some { hostnames := e.hostnames ++ [h], counter := e.counter + 1 }
         else some e) := by
  induction s with
  | nil => rfl
  | cons p rest ih =>
    obtain ⟨pk, pe⟩ := p
    by_cases hpk : pk = k
    · by_cases hp : pk = k'
      · have hk'k : k' = k := hp ▸ hpk
        simp [Store.Update, Store.find, hpk, hp, hk'k]
      · have hkk' : ¬ k = k' := fun he => hp (hpk.trans he)
        simp only [Store.Update, List.map_cons] at ih ⊢
        simp [Store.find, hpk, hp, hkk', ih]
    · by_cases hp : pk = k'
      · have hk'k : ¬ k' = k := fun he => hpk (hp.trans he)
        simp [Store.Update, Store.find, hpk, hp, hk'k]
      · simp only [Store.Update, List.map_cons] at ih ⊢
        simp [Store.find, hpk, hp, ih]

theorem find_Update_self (s : Store) (k h : String) (e : StoreEntry)
    (he : s.find k = some e) :
    (s.Update k h).find k =
      some { hostnames := e.hostnames ++ [h], counter := e.counter + 1 } := by
  rw [find_Update, he]
  simp

theorem find_Update_ne (s : Store) (k h k' : String) (hne : k' ≠ k) :
    (s.Update k h).find k' = s.find k' := by
  rw [find_Update]
  cases hfk : s.find k' <;> simp [hne]

theorem find_upsert_self (s : Store) (k h : String) :
    (upsertHost s k h).find k =
      some (match s.find k with
            | none => { hostnames := [h], counter := 1 }
            | some e => { hostnames := e.hostnames ++ [h], counter := e.counter + 1 }) := by
  unfold upsertHost
  cases hE : s.Exists k
  · have hf : s.find k = none := by
      have := find_isSome_eq_Exists s k
      rw [hE] at this
      exact Option.not_isSome_iff_eq_none.mp (by simp [this])
    simp only [hE, Bool.false_eq_true, if_false, hf]
    exact find_New_self s k h hE
  · have hsome : (s.find k).isSome = true := by rw [find_isSome_eq_Exists, hE]
    obtain ⟨e, he⟩ := Option.isSome_iff_exists.mp hsome
    simp only [hE, if_true, he]
    exact find_Update_self s k h e he

theorem find_upsert_ne (s : Store) (k h k' : String) (hne : k' ≠ k) :
    (upsertHost s k h).find k' = s.find k' := by
  unfold upsertHost
  cases hE : s.Exists k
  · simp only [hE, Bool.false_eq_true, if_false]
    exact find_New_ne s k h k' hne
  · simp only [hE, if_true]
    exact find_Update_ne s k h k' hne

theorem find_foldl_upsert_not_mem (ips : List String) (domain k : String) (s : Store)
    (hk : k ∉ ips) :
    (ips.foldl (fun acc ip => upsertHost acc ip domain) s).find k = s.find k := by
  induction ips generalizing s with
  | nil => rfl
  | cons x xs ih =>
    simp only [List.foldl_cons]
    rw [ih (upsertHost s x domain) (fun hm => hk (List.mem_cons_of_mem _ hm))]
    exact find_upsert_ne s x domain k (fun he => hk (he ▸ List.mem_cons_self _ _))

theorem find_foldl_upsert_mem_nodup (ips : List String) (domain k : String) (s : Store)
    (hnd : ips.Nodup) (hk : k ∈ ips) :
    (ips.foldl (fun acc ip => upsertHost acc ip domain) s).find k =
      some (match s.find k with
            | none => { hostnames := [domain], counter := 1 }
            | some e => { hostnames := e.hostnames ++ [domain], counter := e.counter + 1 }) := by
  induction ips generalizing s with
  | nil => cases hk
  | cons x xs ih =>
    simp only [List.foldl_cons]
    rcases List.mem_cons.mp hk with rfl | hmem
    · rw [find_foldl_upsert_not_mem xs domain k (upsertHost s k domain)
        (List.nodup_cons.mp hnd).1]
      exact find_upsert_self s k domain
    · have hxk : k ≠ x := fun he => (List.nodup_cons.mp hnd).1 (he ▸ hmem)
      rw [ih (upsertHost s x domain) (List.nodup_cons.mp hnd).2 hmem,
          find_upsert_ne s x domain k hxk]

/-- C7: the ingestion callback's create-or-append discipline
(`process.go` lines 147-176).  For a `(hostname, addresses)` event with
non-empty addresses, only the address keys are touched: every key not
among the addresses keeps its bucket unchanged, and (for distinct
addresses) each address key ends with a fresh one-hostname bucket when
it was absent, or its old bucket with the hostname appended and the
count incremented when present.  For an empty address list the same
create-or-append rule is applied to the synthetic key
`"CNAME:"+hostname`, and every other key — in particular every
address-keyed bucket — is left unchanged, so a CNAME-only hostname is
never merged into an address-keyed bucket. -/
theorem C7_ingestion_create_or_append (s : Store) (domain : String) (ips : List String) :
    (ips ≠ [] →
      (∀ k, k ∉ ips → (processEvent s domain ips).find k = s.find k) ∧
      (ips.Nodup → ∀ k ∈ ips,
        (processEvent s domain ips).find k =
          some (match s.find k with
                | none => { hostnames := [domain], counter := 1 }
                | some e => { hostnames := e.hostnames ++ [domain],
                              counter := e.counter + 1 }))) ∧
    (ips = [] →
      (∀ k, k ≠ "CNAME:" ++ domain → (processEvent s domain ips).find k = s.find k) ∧
      (processEvent s domain ips).find ("CNAME:" ++ domain) =
        some (match s.find ("CNAME:" ++ domain) with
              | none => { hostnames := [domain], counter := 1 }
              | some e => { hostnames := e.hostnames ++ [domain],
                            counter := e.counter + 1 })) := by
  constructor
  · intro hne
    have hlen : 0 < ips.length := List.length_pos.mpr hne
    refine ⟨fun k hk => ?_, fun hnd k hk => ?_⟩
    · simp only [processEvent, if_pos hlen]
      exact find_foldl_upsert_not_mem ips domain k s hk
    · simp only [processEvent, if_pos hlen]
      exact find_foldl_upsert_mem_nodup ips domain k s hnd hk
  · rintro rfl
    refine ⟨fun k hk => ?_, ?_⟩
    · simp only [processEvent, List.length_nil, Nat.lt_irrefl, if_false]
      exact find_upsert_ne s ("CNAME:" ++ domain) domain k hk
    · simp only [processEvent, List.length_nil, Nat.lt_irrefl, if_false]
      exact find_upsert_self s ("CNAME:" ++ domain) domain

/-- C7 witness: ingesting `("b.com", ["1.1.1.1", "2.2.2.2"])` into a
store already holding key `1.1.1.1` appends to that bucket and
increments its count. -/
theorem C7_witness :
    (processEvent [("1.1.1.1", { hostnames := ["a.com"], counter := 1 })] "b.com"
        ["1.1.1.1", "2.2.2.2"]).find "1.1.1.1" =
      some { hostnames := ["a.com", "b.com"], counter := 2 } := by
  have h := ((C7_ingestion_create_or_append
      [("1.1.1.1", { hostnames := ["a.com"], counter := 1 })] "b.com"
      ["1.1.1.1", "2.2.2.2"]).1 (by decide)).2 (by decide) "1.1.1.1" (by decide)
  exact h.trans (by decide)

theorem verifyGate_eq_false (q : String → Except Unit DNSResponse) (h : String)
    (hfail : (∃ e, q h = .error e) ∨
             (∃ resp, q h = .ok resp ∧ resp.A = [] ∧ resp.CNAME = [])) :
    verifyGate (some q) h = false := by
  rcases hfail with ⟨e, he⟩ | ⟨resp, hr, hA, hC⟩
  · simp [verifyGate, he]
  · simp [verifyGate, hr, hA, hC]

theorem outputStep_preserves {dns : Option (String → Except Unit DNSResponse)} {json : Bool}
    {h : String} (hgate : verifyGate dns h = false)
    (acc : List String × OutputResult) (h' : String)
    (hinv : h ∉ acc.2.emitted ∧
            acc.2.lines = acc.2.emitted.map (formatHostname json) ∧
            acc.2.resolvedCount = acc.2.emitted.length) :
    h ∉ (outputStep dns json acc h').2.emitted ∧
    (outputStep dns json acc h').2.lines =
      (outputStep dns json acc h').2.emitted.map (formatHostname json) ∧
    (outputStep dns json acc h').2.resolvedCount =
      (outputStep dns json acc h').2.emitted.length := by
  unfold outputStep
  by_cases hdup : h' ∈ acc.1
  · simpa [hdup] using hinv
  · have hdup' : ¬ (acc.1.contains h' = true) := by simpa using hdup
    by_cases hg : verifyGate dns h' = true
    · have hne : h' ≠ h := fun he => by rw [he, hgate] at hg; exact Bool.noConfusion hg
      rw [if_neg hdup', if_pos hg]
      dsimp only
      refine ⟨?_, ?_, ?_⟩
      · intro hmem
        simp only [List.mem_append, List.mem_singleton] at hmem
        rcases hmem with hold | rfl
        · exact hinv.1 hold
        · exact hne rfl
      · simp [hinv.2.1]
      · simp [hinv.2.2]
    · rw [if_neg hdup', if_neg hg]
      dsimp only
      exact hinv

theorem foldl_outputStep_preserves {dns : Option (String → Except Unit DNSResponse)}
    {json : Bool} {h : String} (hgate : verifyGate dns h = false)
    (hs : List String) (acc : List String × OutputResult)
    (hinv : h ∉ acc.2.emitted ∧
            acc.2.lines = acc.2.emitted.map (formatHostname json) ∧
            acc.2.resolvedCount = acc.2.emitted.length) :
    h ∉ (hs.foldl (outputStep dns json) acc).2.emitted ∧
    (hs.foldl (outputStep dns json) acc).2.lines =
      (hs.foldl (outputStep dns json) acc).2.emitted.map (formatHostname json) ∧
    (hs.foldl (outputStep dns json) acc).2.resolvedCount =
      (hs.foldl (outputStep dns json) acc).2.emitted.length := by
  induction hs generalizing acc with
  | nil => exact hinv
  | cons x xs ih =>
    exact ih (outputStep dns json acc x) (outputStep_preserves hgate acc x hinv)

theorem foldl_store_outputStep_preserves {dns : Option (String → Except Unit DNSResponse)}
    {json : Bool} {h : String} (hgate : verifyGate dns h = false)
    (s : Store) (acc : List String × OutputResult)
    (hinv : h ∉ acc.2.emitted ∧
            acc.2.lines = acc.2.emitted.map (formatHostname json) ∧
            acc.2.resolvedCount = acc.2.emitted.length) :
    h ∉ (s.foldl (fun acc p => p.2.hostnames.foldl (outputStep dns json) acc) acc).2.emitted ∧
    (s.foldl (fun acc p => p.2.hostnames.foldl (outputStep dns json) acc) acc).2.lines =
      (s.foldl (fun acc p => p.2.hostnames.foldl (outputStep dns json) acc) acc).2.emitted.map
        (formatHostname json) ∧
    (s.foldl (fun acc p => p.2.hostnames.foldl (outputStep dns json) acc) acc).2.resolvedCount =
      (s.foldl (fun acc p => p.2.hostnames.foldl (outputStep dns json) acc) acc).2.emitted.length := by
  induction s generalizing acc with
  | nil => exact hinv
  | cons p rest ih =>
    exact ih _ (foldl_outputStep_preserves hgate p.2.hostnames acc hinv)

/-- C8: with trusted-resolver verification configured, a hostname whose
trusted-path query errors or returns neither an A address nor a CNAME
answer is excluded from the emitted hostnames — and hence from every
sink, since the lines written to the file and console sinks are exactly
the formatted emitted hostnames — and the resolved-count tally, which
always equals the number of emitted hostnames, is never incremented for
it (`process.go` lines 323-334, 353-357).  The failure is not an error
of the run: `writeOutput`'s result is a total value, the task merely
logs and returns. -/
theorem C8_failed_verification_excluded (s : Store)
    (q : String → Except Unit DNSResponse) (json : Bool) (h : String)
    (hfail : (∃ e, q h = .error e) ∨
             (∃ resp, q h = .ok resp ∧ resp.A = [] ∧ resp.CNAME = [])) :
    h ∉ (writeOutput s (some q) json).emitted ∧
    (writeOutput s (some q) json).lines =
      (writeOutput s (some q) json).emitted.map (formatHostname json) ∧
    (writeOutput s (some q) json).resolvedCount =
      (writeOutput s (some q) json).emitted.length := by
  have hgate := verifyGate_eq_false q h hfail
  unfold writeOutput
  exact foldl_store_outputStep_preserves hgate s
    ([], { emitted := [], lines := [], resolvedCount := 0 })
    (by simp)

/-- C8 witness: with `b.com` failing on the trusted path, draining a
bucket holding `a.com` and `b.com` never emits `b.com` and the tally
equals the number of emitted hostnames. -/
theorem C8_witness :
    "b.com" ∉ (writeOutput [("1.1.1.1", { hostnames := ["a.com", "b.com"], counter := 2 })]
        (some trustedQueryEx) false).emitted ∧
    (writeOutput [("1.1.1.1", { hostnames := ["a.com", "b.com"], counter := 2 })]
        (some trustedQueryEx) false).lines =
      (writeOutput [("1.1.1.1", { hostnames := ["a.com", "b.com"], counter := 2 })]
        (some trustedQueryEx) false).emitted.map (formatHostname false) ∧
    (writeOutput [("1.1.1.1", { hostnames := ["a.com", "b.com"], counter := 2 })]
        (some trustedQueryEx) false).resolvedCount =
      (writeOutput [("1.1.1.1", { hostnames := ["a.com", "b.com"], counter := 2 })]
        (some trustedQueryEx) false).emitted.length :=
  C8_failed_verification_excluded _ trustedQueryEx false "b.com" (Or.inl ⟨(), by decide⟩)

theorem mem_wsetSet_self (w : WildcardSet) (k : String) : k ∈ wsetSet w k := by
  unfold wsetSet
  by_cases hc : w.contains k = true
  · rw [if_pos hc]
    simpa using hc
  · rw [if_neg hc]
    simp

theorem mem_wsetSet_of_mem {w : WildcardSet} {k : String} (hk : k ∈ w) (k' : String) :
    k ∈ wsetSet w k' := by
  unfold wsetSet
  by_cases hc : w.contains k' = true
  · rwa [if_pos hc]
  · rw [if_neg hc]
    exact List.mem_append_left _ hk

theorem mem_foldl_wsetSet_of_mem {w : WildcardSet} {k : String} (hk : k ∈ w)
    (l : List String) : k ∈ l.foldl wsetSet w := by
  induction l generalizing w with
  | nil => exact hk
  | cons x xs ih => exact ih (mem_wsetSet_of_mem hk x)

theorem mem_foldl_wsetSet_of_mem_list {l : List String} {k : String} (hk : k ∈ l)
    (w : WildcardSet) : k ∈ l.foldl wsetSet w := by
  induction l generalizing w with
  | nil => cases hk
  | cons x xs ih =>
    rcases List.mem_cons.mp hk with rfl | hmem
    · exact mem_foldl_wsetSet_of_mem (mem_wsetSet_self w k) xs
    · exact ih hmem _

theorem Exists_Delete_iff (s : Store) (x k : String) :
    (Store.Delete s x).Exists k = true ↔ (s.Exists k = true ∧ k ≠ x) := by
  simp only [Store.Delete, Store.Exists, List.any_eq_true, List.mem_filter,
    decide_eq_true_eq]
  constructor
  · rintro ⟨p, ⟨hp, hne⟩, hk⟩
    exact ⟨⟨p, hp, hk⟩, fun he => hne (hk.trans he)⟩
  · rintro ⟨⟨p, hp, hk⟩, hne⟩
    exact ⟨p, ⟨hp, fun he => hne (hk ▸ he)⟩, hk⟩

theorem Exists_deleteKeys_iff (s : Store) (w : WildcardSet) (k : String) :
    (deleteKeys s w).Exists k = true ↔ (s.Exists k = true ∧ k ∉ w) := by
  induction w generalizing s with
  | nil => simp [deleteKeys]
  | cons x xs ih =>
    show (deleteKeys (Store.Delete s x) xs).Exists k = true ↔ _
    rw [ih, Exists_Delete_iff]
    simp only [List.mem_cons]
    constructor
    · rintro ⟨⟨hE, hne⟩, hnx⟩
      exact ⟨hE, fun hm => hm.elim hne hnx⟩
    · rintro ⟨hE, hnm⟩
      exact ⟨⟨hE, fun he => hnm (Or.inl he)⟩, fun hm => hnm (Or.inr hm)⟩

theorem bucketFold_wset_mono (probe : String → ProbeResult) (key : String)
    (hs : List String) (acc : WildcardSet × (List (String × String) × Bool))
    {k : String} (hk : k ∈ acc.1) :
    k ∈ (hs.foldl (bucketProbeStep probe key) acc).1 := by
  induction hs generalizing acc with
  | nil => exact hk
  | cons x xs ih =>
    apply ih
    unfold bucketProbeStep
    by_cases hc : acc.2.2 = true
    · rwa [if_pos hc]
    · rw [if_neg hc]
      dsimp only
      have h1 : k ∈ (probe x).ips.foldl wsetSet acc.1 := mem_foldl_wsetSet_of_mem hk _
      by_cases hw : (probe x).isWildcard = true
      · rw [if_pos hw]
        exact mem_wsetSet_of_mem h1 key
      · rwa [if_neg hw]

theorem bucketFold_probed_spec (probe : String → ProbeResult) (key : String)
    (hs : List String) (acc : WildcardSet × (List (String × String) × Bool)) :
    ∀ p ∈ (hs.foldl (bucketProbeStep probe key) acc).2.1,
      p ∈ acc.2.1 ∨
      (p.1 = key ∧
       (∀ ip ∈ (probe p.2).ips, ip ∈ (hs.foldl (bucketProbeStep probe key) acc).1) ∧
       ((probe p.2).isWildcard = true → key ∈ (hs.foldl (bucketProbeStep probe key) acc).1)) := by
  induction hs generalizing acc with
  | nil => exact fun p hp => Or.inl hp
  | cons x xs ih =>
    intro p hp
    rcases ih (bucketProbeStep probe key acc x) p hp with hin | hgood
    · by_cases hc : acc.2.2 = true
      · rw [bucketProbeStep, if_pos hc] at hin
        exact Or.inl hin
      · rw [bucketProbeStep, if_neg hc] at hin
        dsimp only at hin
        rcases List.mem_append.mp hin with hold | hnew
        · exact Or.inl hold
        · have hpx : p = (key, x) := List.mem_singleton.mp hnew
          subst hpx
          refine Or.inr ⟨rfl, ?_, ?_⟩
          · intro ip hip
            have h2 : ip ∈ (bucketProbeStep probe key acc x).1 := by
              rw [bucketProbeStep, if_neg hc]
              dsimp only
              have h1 : ip ∈ (probe x).ips.foldl wsetSet acc.1 :=
                mem_foldl_wsetSet_of_mem_list hip _
              by_cases hw : (probe x).isWildcard = true
              · rw [if_pos hw]
                exact mem_wsetSet_of_mem h1 key
              · rwa [if_neg hw]
            exact bucketFold_wset_mono probe key xs _ h2
          · intro hw
            have h2 : key ∈ (bucketProbeStep probe key acc x).1 := by
              rw [bucketProbeStep, if_neg hc]
              dsimp only
              rw [if_pos hw]
              exact mem_wsetSet_self _ key
            exact bucketFold_wset_mono probe key xs _ h2
    · exact Or.inr hgood

theorem bucketsFold_wset_mono (probe : String → ProbeResult)
    (bs : List (String × List String)) (acc : WildcardSet × List (String × String))
    {k : String} (hk : k ∈ acc.1) :
    k ∈ (bs.foldl (bucketSubmitStep probe) acc).1 := by
  induction bs generalizing acc with
  | nil => exact hk
  | cons b bs ih =>
    apply ih
    simp only [bucketSubmitStep, runBucketProbes]
    exact bucketFold_wset_mono probe b.1 b.2 _ hk

theorem bucketsFold_probed_spec (probe : String → ProbeResult)
    (bs : List (String × List String)) (acc : WildcardSet × List (String × String)) :
    ∀ p ∈ (bs.foldl (bucketSubmitStep probe) acc).2,
      p ∈ acc.2 ∨
      ((∃ b ∈ bs, p.1 = b.1) ∧
       (∀ ip ∈ (probe p.2).ips, ip ∈ (bs.foldl (bucketSubmitStep probe) acc).1) ∧
       ((probe p.2).isWildcard = true → p.1 ∈ (bs.foldl (bucketSubmitStep probe) acc).1)) := by
  induction bs generalizing acc with
  | nil => exact fun p hp => Or.inl hp
  | cons b bs ih =>
    intro p hp
    rcases ih (bucketSubmitStep probe acc b) p hp with hin | ⟨⟨b', hb', hpb⟩, hips, hwild⟩
    · simp only [bucketSubmitStep] at hin
      rcases List.mem_append.mp hin with hold | hbr
      · exact Or.inl hold
      · simp only [runBucketProbes] at hbr
        rcases bucketFold_probed_spec probe b.1 b.2 (acc.1, ([], false)) p hbr with
          hnil | ⟨hkey, hips0, hw0⟩
        · cases hnil
        · refine Or.inr ⟨⟨b, List.mem_cons_self _ _, hkey⟩, ?_, ?_⟩
          · intro ip hip
            have h2 : ip ∈ (bucketSubmitStep probe acc b).1 := by
              simp only [bucketSubmitStep, runBucketProbes]
              exact hips0 ip hip
            exact bucketsFold_wset_mono probe bs _ h2
          · intro hw
            have h2 : p.1 ∈ (bucketSubmitStep probe acc b).1 := by
              rw [hkey]
              simp only [bucketSubmitStep, runBucketProbes]
              exact hw0 hw
            exact bucketsFold_wset_mono probe bs _ h2
    · exact Or.inr ⟨⟨b', List.mem_cons_of_mem _ hb', hpb⟩, hips, hwild⟩

/-- C5: after the join barrier of the wildcard-filter phase, every key
of the wildcard set has been deleted from the record store
(`process.go` lines 268-270), so no wildcard-set key can be visited by
the output phase's store iteration; and the wildcard set indeed
contains every address observed by any probe that ran, plus the bucket
key of every probe that reported wildcard (`process.go` lines
237-254). -/
theorem C5_wildcard_keys_deleted (s : Store) (w0 : WildcardSet) (strict : Bool)
    (probe : String → ProbeResult) :
    (∀ k ∈ (filterWildcards s w0 strict probe).wset,
      (filterWildcards s w0 strict probe).store.Exists k = false) ∧
    (∀ p ∈ (filterWildcards s w0 strict probe).probed,
      (∀ ip ∈ (probe p.2).ips, ip ∈ (filterWildcards s w0 strict probe).wset) ∧
      ((probe p.2).isWildcard = true → p.1 ∈ (filterWildcards s w0 strict probe).wset)) := by
  constructor
  · intro k hk
    simp only [filterWildcards] at hk ⊢
    cases hE : (deleteKeys s
        ((submittedBuckets s w0 strict).foldl (bucketSubmitStep probe) (w0, [])).1).Exists k
    · rfl
    · exact absurd hk ((Exists_deleteKeys_iff s _ k).mp hE).2
  · intro p hp
    simp only [filterWildcards] at hp ⊢
    rcases bucketsFold_probed_spec probe (submittedBuckets s w0 strict) (w0, []) p hp with
      hnil | ⟨-, hips, hw⟩
    · cases hnil
    · exact ⟨hips, hw⟩

/-- C5 witness: in the cross-observation run, the address `10.0.0.9`
observed by a probe is in the wildcard set, and its key has been
deleted from the store before the output phase. -/
theorem C5_witness :
    (filterWildcards wildcardStoreCross [] false wildcardProbeCross).store.Exists "10.0.0.9"
      = false :=
  (C5_wildcard_keys_deleted wildcardStoreCross [] false wildcardProbeCross).1
    "10.0.0.9" (by decide)

theorem entry_unique_of_nodup {s : Store} (hnd : (s.map Prod.fst).Nodup) {k : String}
    {e1 e2 : StoreEntry} (h1 : (k, e1) ∈ s) (h2 : (k, e2) ∈ s) : e1 = e2 := by
  induction s with
  | nil => cases h1
  | cons p rest ih =>
    obtain ⟨pk, pe⟩ := p
    simp only [List.map_cons, List.nodup_cons] at hnd
    rcases List.mem_cons.mp h1 with he1 | hm1 <;> rcases List.mem_cons.mp h2 with he2 | hm2
    · injection he1 with hk1 he1'
      injection he2 with hk2 he2'
      rw [he1', he2']
    · injection he1 with hk1 he1'
      subst hk1
      exact absurd (List.mem_map_of_mem Prod.fst hm2) hnd.1
    · injection he2 with hk2 he2'
      subst hk2
      exact absurd (List.mem_map_of_mem Prod.fst hm1) hnd.1
    · exact ih hnd.2 hm1 hm2

theorem eligibleEntry_nil_iff (strict : Bool) (p : String × StoreEntry) :
    eligibleEntry [] strict p = true ↔ (5 ≤ p.2.counter ∨ strict = true) := by
  simp [eligibleEntry, wsetHas]

theorem mem_submittedBuckets_iff {s : Store} (hnd : (s.map Prod.fst).Nodup)
    {k : String} {e : StoreEntry} (hmem : (k, e) ∈ s) (strict : Bool) :
    (k, e.hostnames) ∈ submittedBuckets s [] strict ↔ (5 ≤ e.counter ∨ strict = true) := by
  constructor
  · intro hsub
    obtain ⟨p, hpf, hpe⟩ := List.mem_map.mp hsub
    obtain ⟨hps, helig⟩ := List.mem_filter.mp hpf
    obtain ⟨pk, pe⟩ := p
    obtain ⟨rfl, -⟩ : pk = k ∧ pe.hostnames = e.hostnames :=
      ⟨congrArg Prod.fst hpe, congrArg Prod.snd hpe⟩
    obtain rfl : pe = e := entry_unique_of_nodup hnd hps hmem
    exact (eligibleEntry_nil_iff strict (pk, pe)).mp helig
  · intro helig
    exact List.mem_map.mpr ⟨(k, e),
      List.mem_filter.mpr ⟨hmem, (eligibleEntry_nil_iff strict (k, e)).mpr helig⟩, rfl⟩

/-- C4 (amended): in the wildcard-detection phase of a fresh run (empty
phase-initial wildcard set), a store entry's hostnames are submitted
for probing if and only if the entry's count is at least 5 or the
strict-mode flag is set (`process.go` line 221); a bucket that is not
probe-eligible is never itself probed — but, contrary to the claim's
final conjunct (refuted by `C4_counterexample_ineligible_bucket_deleted`),
it survives to the output phase only if its key was not inserted into
the wildcard set by another bucket's probes (as an observed address or
a confirmed wildcard key). -/
theorem C4_probe_eligibility (s : Store) (strict : Bool) (probe : String → ProbeResult)
    (k : String) (e : StoreEntry) (hmem : (k, e) ∈ s)
    (hnd : (s.map Prod.fst).Nodup) :
    ((k, e.hostnames) ∈ submittedBuckets s [] strict ↔ (5 ≤ e.counter ∨ strict = true)) ∧
    (¬ (5 ≤ e.counter ∨ strict = true) →
      ∀ h, (k, h) ∉ (filterWildcards s [] strict probe).probed) ∧
    ((filterWildcards s [] strict probe).store.Exists k = true ↔
      k ∉ (filterWildcards s [] strict probe).wset) := by
  refine ⟨mem_submittedBuckets_iff hnd hmem strict, ?_, ?_⟩
  · intro hinelig h hp
    simp only [filterWildcards] at hp
    rcases bucketsFold_probed_spec probe (submittedBuckets s [] strict) ([], []) (k, h) hp with
      hnil | ⟨⟨b, hb, hkb⟩, -, -⟩
    · cases hnil
    · obtain ⟨bk, bh⟩ := b
      have hkbk : k = bk := hkb
      subst hkbk
      obtain ⟨p, hpf, hpe⟩ := List.mem_map.mp hb
      obtain ⟨hps, helig⟩ := List.mem_filter.mp hpf
      obtain ⟨pk, pe⟩ := p
      injection hpe with hk1 hh1
      subst hk1
      obtain rfl : pe = e := entry_unique_of_nodup hnd hps hmem
      exact hinelig ((eligibleEntry_nil_iff strict _).mp helig)
  · simp only [filterWildcards]
    rw [Exists_deleteKeys_iff]
    have hE : s.Exists k = true := by
      simp only [Store.Exists, List.any_eq_true]
      exact ⟨(k, e), hmem, by simp⟩
    simp [hE]

/-- C4 witness: in the cross-observation run the `10.0.0.5` bucket
(count 5) is submitted, the `10.0.0.9` bucket (count 1, strict off) is
not probed, and `10.0.0.9` does not survive precisely because its key
entered the wildcard set. -/
theorem C4_witness :
    ((("10.0.0.9", ["app.example.com"]) ∈ submittedBuckets wildcardStoreCross [] false ↔
        (5 ≤ 1 ∨ false = true)) ∧
     (¬ (5 ≤ 1 ∨ false = true) →
       ∀ h, ("10.0.0.9", h) ∉
         (filterWildcards wildcardStoreCross [] false wildcardProbeCross).probed) ∧
     ((filterWildcards wildcardStoreCross [] false wildcardProbeCross).store.Exists "10.0.0.9"
         = true ↔
       "10.0.0.9" ∉ (filterWildcards wildcardStoreCross [] false wildcardProbeCross).wset)) :=
  C4_probe_eligibility wildcardStoreCross false wildcardProbeCross "10.0.0.9"
    { hostnames := ["app.example.com"], counter := 1 } (by decide) (by decide)

/-- C10: when the run's domain list is empty, `Run` skips the wildcard
filtering phase entirely (`process.go` line 120): no probes are issued,
the wildcard set stays empty, and the record store reaches the output
phase exactly as ingestion left it. -/
theorem C10_no_domains_skips_wildcard_phase
    (domains : List String) (s : Store) (strict : Bool)
    (probe : String → ProbeResult)
    (dnsResolver : Option (String → Except Unit DNSResponse)) (json : Bool)
    (hd : domains = []) :
    runPipeline domains s strict probe dnsResolver json =
      ({ store := s, wset := [], probed := [] }, writeOutput s dnsResolver json) := by
  subst hd
  simp [runPipeline]

/-- C10 witness: the theorem applied to a concrete one-bucket store with
an empty domain list. -/
theorem C10_witness :
    runPipeline [] [("1.1.1.1", { hostnames := ["a.com"], counter := 1 })] false
        (fun _ => { isWildcard := true, ips := ["2.2.2.2"] }) none false =
      ({ store := [("1.1.1.1", { hostnames := ["a.com"], counter := 1 })],
         wset := [], probed := [] },
       writeOutput [("1.1.1.1", { hostnames := ["a.com"], counter := 1 })] none false) :=
  C10_no_domains_skips_wildcard_phase [] _ false _ none false rfl
